import Mathlib

/-!
Verification of the subtitle-timing engine, pipeline orchestrator and upload
scheduler of the yt_reddit_shortgen repository, shallowly embedded in Lean.

Conventions of the embedding:
* Python floats are modelled as exact rationals; every arithmetic step of the
  source is mirrored exactly, so claims about exact equalities and orderings
  are settled in exact arithmetic.
* Words and word tokens are modelled as lists of characters.  A script is the
  list of its whitespace-separated tokens (the result of the Python split call),
  so tokens themselves contain no whitespace.
* Python dicts keyed by integer word positions are modelled as association
  lists with a prepend-insert, so that a later insert shadows an earlier one,
  matching dict assignment semantics.
-/

/- The Batteries definitions of rational arithmetic are irreducible by
default, which stops concrete evaluation by decide; restore the ordinary
reducibility for this development. -/
attribute [local semireducible] Rat.mul Rat.add Rat.sub Rat.inv Rat.ofScientific

namespace ShortGen

/-- Characters kept by the normalization step in
SubtitleGenerator._normalize_word_for_matching, which deletes every character
matching the regex class of non-word, non-space characters.  Word characters
are alphanumerics and the underscore; whitespace is kept. -/
def keepChar (c : Char) : Bool :=
  c.isAlphanum || c = '_' || c.isWhitespace

/-- Python str.strip: drop whitespace from both ends. -/
def pyStrip (s : List Char) : List Char :=
  ((s.dropWhile Char.isWhitespace).reverse.dropWhile Char.isWhitespace).reverse

/-- SubtitleGenerator._normalize_word_for_matching: strip, lowercase, delete
punctuation and special characters. -/
def normalizeWord (w : List Char) : List Char :=
  (((pyStrip w).map Char.toLower).filter keepChar)

/-- The containment clause of _words_match, lines 119-124 of subtitles.py:
both normalized forms nonempty (Python truthiness guard), one contained in the
other, and the lengths differ by at most two. -/
def matchContain (norm1 norm2 : List Char) : Bool :=
  (!norm1.isEmpty && !norm2.isEmpty)
    && (decide (norm1 <:+: norm2) || decide (norm2 <:+: norm1))
    && decide (((norm1.length : Int) - (norm2.length : Int)).natAbs ≤ 2)

/-- The three-character front clause of _words_match, lines 126-129 of
subtitles.py. -/
def matchFront (norm1 norm2 : List Char) : Bool :=
  decide (norm1.length ≥ 3) && decide (norm2.length ≥ 3)
    && decide (norm1.take 3 = norm2.take 3)

/-- SubtitleGenerator._words_match, lines 110-131 of subtitles.py: exact match
on normalized forms, else the containment clause, else the three-character
front clause, else no match. -/
def wordsMatch (word1 word2 : List Char) : Bool :=
  let norm1 := normalizeWord word1
  let norm2 := normalizeWord word2
  if norm1 = norm2 then true
  else if matchContain norm1 norm2 then true
  else if matchFront norm1 norm2 then true
  else false

/-- The containment clause exactly as the words of claim C6 describe it: one
normalized form contains the other and the lengths differ by at most two,
with no nonemptiness requirement. -/
def matchContainClaim (norm1 norm2 : List Char) : Bool :=
  (decide (norm1 <:+: norm2) || decide (norm2 <:+: norm1))
    && decide (((norm1.length : Int) - (norm2.length : Int)).natAbs ≤ 2)

/-- The match predicate exactly as the words of claim C6 describe it:
(a) normalized forms equal; or (b) one normalized form contains the other and
the lengths differ by at most two; or (c) both normalized forms have length at
least three and share the same three-character front.  Written from the claim
text, for comparison with wordsMatch, which is written from the source. -/
def wordsMatchClaim (word1 word2 : List Char) : Bool :=
  let norm1 := normalizeWord word1
  let norm2 := normalizeWord word2
  decide (norm1 = norm2) || matchContainClaim norm1 norm2 || matchFront norm1 norm2

/-- The claim amended as the counterexample forces: clause (b) additionally
requires both normalized forms to be nonempty (the source guards the
containment test behind a truthiness check on both normalized strings). -/
def wordsMatchClaimAmended (word1 word2 : List Char) : Bool :=
  let norm1 := normalizeWord word1
  let norm2 := normalizeWord word2
  decide (norm1 = norm2) || matchContain norm1 norm2 || matchFront norm1 norm2

/-- The token "dont" written as characters. -/
def dontPlain : List Char := ['d', 'o', 'n', 't']

/-- The token with an embedded apostrophe character (code 39). -/
def dontApos : List Char := ['d', 'o', 'n', Char.ofNat 39, 't']

/-- C6 counterexample: the claim states the match predicate is an iff with
clause (b) requiring only containment plus a length bound; on the input pair
"!!" and "ab" the claim formula is true (the empty normalized form of "!!" is
vacuously contained in "ab" and the lengths differ by two) but the source
returns false, because it additionally requires both normalized forms to be
nonempty. -/
theorem C6_counterexample :
    wordsMatch ['!', '!'] ['a', 'b'] = false
      ∧ wordsMatchClaim ['!', '!'] ['a', 'b'] = true := by
  constructor <;> decide

/-- C6 amended: the source match predicate agrees with the claim formula once
clause (b) also requires both normalized forms to be nonempty; moreover
"dont" matches the apostrophe form of the same word, and a completely
unrelated token does not match (and the function is total, so no exception). -/
theorem C6_match_characterization :
    (∀ w1 w2 : List Char, wordsMatch w1 w2 = wordsMatchClaimAmended w1 w2)
      ∧ wordsMatch dontPlain dontApos = true
      ∧ wordsMatch dontPlain ['z', 'z', 'z', 'z'] = false := by
  refine ⟨fun w1 w2 => ?_, by decide, by decide⟩
  simp only [wordsMatch, wordsMatchClaimAmended]
  generalize normalizeWord w1 = n1
  generalize normalizeWord w2 = n2
  by_cases h1 : n1 = n2
  · simp [h1]
  · cases hb : matchContain n1 n2 <;> cases hc : matchFront n1 n2 <;>
      simp [h1, hb, hc]

/-! ## Data model of the timing engine -/

/-- Python min on two rationals, written with an explicit comparison so that
concrete instances reduce inside the kernel. -/
def rmin (a b : ℚ) : ℚ := if a ≤ b then a else b

/-- Python max on two rationals, written with an explicit comparison so that
concrete instances reduce inside the kernel. -/
def rmax (a b : ℚ) : ℚ := if a ≤ b then b else a

theorem rmin_eq (a b : ℚ) : rmin a b = min a b := by
  rw [rmin, min_def]

theorem rmax_eq (a b : ℚ) : rmax a b = max a b := by
  rw [rmax, max_def]

/-- One external word timing hint: the dict entries with keys text, offset and
duration consumed by _generate_from_word_timings. -/
structure WordTiming where
  text : List Char
  offset : ℚ
  duration : ℚ
deriving DecidableEq

/-- A recorded time span; the field stop models the dict key named end
(a reserved word in Lean). -/
structure Span where
  start : ℚ
  stop : ℚ
deriving DecidableEq

/-- One generated subtitle: dict with keys start, end and text.  The text is
kept as the list of words of the caption unit. -/
structure Caption where
  start : ℚ
  stop : ℚ
  words : List (List Char)
deriving DecidableEq

/-- config.py: SUBTITLE_WORDS_PER_LINE = 1. -/
def SUBTITLE_WORDS_PER_LINE : ℕ := 1

/-- config.py: SUBTITLE_MIN_DURATION defaults to 0.25. -/
def SUBTITLE_MIN_DURATION : ℚ := 0.25

/-! ## Caption segmenter -/

/-- The loop of _split_into_segments: accumulate words into the current
segment while it holds fewer than maxWords words, otherwise flush it and start
a new one; the trailing nonempty segment is appended at the end. -/
def splitGo (maxWords : ℕ) : List (List Char) → List (List Char) → List (List (List Char))
  | [], current => if current.isEmpty then [] else [current]
  | w :: ws, current =>
      if current.length < maxWords then splitGo maxWords ws (current ++ [w])
      else current :: splitGo maxWords ws [w]

/-- SubtitleGenerator._split_into_segments on the word list of the script.
The source falls back to the whole script as a single segment when no segments
were produced (only possible for an empty word list, where the fallback
segment re-splits to an empty word list, modelled as the single empty
segment). -/
def splitIntoSegments (words : List (List Char)) (maxWords : ℕ) : List (List (List Char)) :=
  let segments := splitGo maxWords words []
  if segments.isEmpty then [words] else segments

/-! ## Word aligner (word-timing adapter) -/

/-- Lines 159-169 of subtitles.py: the span recorded for a matched timing;
if the reported offset exceeds 1000 the source is treated as milliseconds and
both offset and duration are divided by 1000. -/
def timingSpan (t : WordTiming) : Span :=
  if t.offset > 1000 then
    { start := t.offset / 1000, stop := t.offset / 1000 + t.duration / 1000 }
  else
    { start := t.offset, stop := t.offset + t.duration }

/-- The bounded lookahead search of lines 149-181: the first offset within
min 5 (remaining words) at which the timing text matches the script word.
The source also breaks when the index runs past the script, which the get
lookup models by failing the test there. -/
def findMatchOffset (words : List (List Char)) (wordIdx : ℕ) (timingText : List Char) :
    Option ℕ :=
  (List.range (min 5 (words.length - wordIdx))).find? fun off =>
    match words.get? (wordIdx + off) with
    | some w => wordsMatch timingText w
    | none => false

/-- Aligner state: the position-to-span map (prepend insert, so a later insert
shadows an earlier one, as dict assignment does) and the script cursor. -/
structure AlignState where
  timingMap : List (ℕ × Span)
  wordIdx : ℕ

/-- One iteration of the matching loop over word timings (lines 144-185 of
subtitles.py).  On a match at lookahead offset off, record the span at
position wordIdx + off and advance the cursor past the matched word; on no
match, leave the state unchanged (the timing is skipped). -/
def alignStep (words : List (List Char)) (st : AlignState) (t : WordTiming) : AlignState :=
  match findMatchOffset words st.wordIdx t.text with
  | some off =>
      { timingMap := (st.wordIdx + off, timingSpan t) :: st.timingMap
        wordIdx := if off = 0 then st.wordIdx + 1 else st.wordIdx + off + 1 }
  | none => st

/-- The full alignment pass: fold the matching loop over the timing list. -/
def alignTimings (words : List (List Char)) (timings : List WordTiming) :
    List (ℕ × Span) :=
  (timings.foldl (alignStep words) { timingMap := [], wordIdx := 0 }).timingMap

/-! ## Caption assembler (word-timing adapter) -/

/-- The end of the previous subtitle, or 0 when there is none (lines 232-237
of subtitles.py). -/
def prevStop (subs : List Caption) : ℚ :=
  match subs.getLast? with
  | some s => s.stop
  | none => 0

/-- One iteration of the assembly loop of lines 207-267 of subtitles.py,
producing the subtitle for one segment and the advanced word index.  The
indices in matchedIdx come from filtering on a successful lookup, so the
lookups below always succeed; getD 0 is never exercised. -/
def assembleStep (timingMap : List (ℕ × Span)) (scriptLen : ℕ) (audioDuration : ℚ)
    (st : List Caption × ℕ) (seg : List (List Char)) : List Caption × ℕ :=
  let subs := st.1
  let wordIdx := st.2
  if seg.isEmpty then (subs, wordIdx)
  else
    let segEnd := min (wordIdx + seg.length) scriptLen
    let matchedIdx := (List.range' wordIdx (segEnd - wordIdx)).filter
        (fun i => (timingMap.lookup i).isSome)
    match matchedIdx.head?, matchedIdx.getLast? with
    | some i0, some i1 =>
        let startTime := ((timingMap.lookup i0).map Span.start).getD 0
        let endTime0 := ((timingMap.lookup i1).map Span.stop).getD 0
        let endTime :=
          if matchedIdx.length < seg.length
              ∧ endTime0 - startTime < SUBTITLE_MIN_DURATION then
            startTime + SUBTITLE_MIN_DURATION
          else endTime0
        (subs ++ [⟨rmax 0 startTime, rmin endTime audioDuration, seg⟩], segEnd)
    | _, _ =>
        let startTime := prevStop subs
        let estimatedEnd := startTime + (seg.length : ℚ) / (2.5 : ℚ)
        let endTime :=
          match (List.range' segEnd (min (segEnd + 3) scriptLen - segEnd)).find?
              (fun i => (timingMap.lookup i).isSome) with
          | some i => ((timingMap.lookup i).map Span.start).getD 0
          | none => estimatedEnd
        (subs ++ [⟨rmax 0 startTime, rmin endTime audioDuration, seg⟩], segEnd)

/-- Replace the end of the last subtitle by f applied to it; identity on the
empty list (models the final assignment guarded by a nonemptiness check). -/
def updateLastStop (f : ℚ → ℚ) : List Caption → List Caption
  | [] => []
  | [s] => [{ s with stop := f s.stop }]
  | s :: t :: rest => s :: updateLastStop f (t :: rest)

/-- SubtitleGenerator._generate_from_word_timings: align, assemble, and clamp
the end of the last subtitle to at most the audio duration (line 271 takes the
minimum; it does not force equality). -/
def generateFromWordTimings (script : List (List Char))
    (segments : List (List (List Char))) (timings : List WordTiming)
    (audioDuration : ℚ) : List Caption :=
  let timingMap := alignTimings script timings
  let subs :=
    (segments.foldl (assembleStep timingMap script.length audioDuration) ([], 0)).1
  updateLastStop (fun e => rmin audioDuration e) subs

/-! ## Proportional-estimate adapter -/

/-- The word_weight helper local to _generate_proportional_timings: base
1 + length / 8, plus 0.6 after sentence-ending punctuation, plus 0.3 after a
comma, semicolon or colon (Python endswith on single characters is a test on
the last character). -/
def wordWeightProp (w : List Char) : ℚ :=
  let base := 1 + (w.length : ℚ) / 8
  match w.getLast? with
  | some c =>
      if c = '.' ∨ c = '!' ∨ c = '?' then base + (0.6 : ℚ)
      else if c = ',' ∨ c = ';' ∨ c = ':' then base + (0.3 : ℚ)
      else base
  | none => base

/-- The first loop of _generate_proportional_timings (lines 609-621): per
nonempty segment, the weighted share of the audio duration clamped to the
interval from 0.35 to min 3 audioDuration; empty segments are skipped.  The
wordIdx argument tracks the slice position into the weight list. -/
def rawSegDurations (weights : List ℚ) (totalWeight : ℚ) (segCount : ℕ)
    (audioDuration : ℚ) : List (List (List Char)) → ℕ → List ℚ
  | [], _ => []
  | seg :: rest, wordIdx =>
      if seg.length = 0 then
        rawSegDurations weights totalWeight segCount audioDuration rest wordIdx
      else
        let segWeight := ((weights.drop wordIdx).take seg.length).sum
        let raw := if totalWeight > 0 then audioDuration * (segWeight / totalWeight)
                   else audioDuration / (segCount : ℚ)
        rmax (0.35 : ℚ) (rmin (rmin 3 audioDuration) raw)
          :: rawSegDurations weights totalWeight segCount audioDuration rest
              (wordIdx + seg.length)

/-- Lines 623-627 of subtitles.py: when the durations have positive sum,
multiply each by audioDuration / total and floor the result at 0.2. -/
def scaleDurations (audioDuration : ℚ) (durations : List ℚ) : List ℚ :=
  if durations.sum > 0 then
    durations.map (fun d => rmax (0.2 : ℚ) (d * (audioDuration / durations.sum)))
  else durations

/-- The layout loop of lines 629-639: each subtitle starts at the running
current time and ends at min audioDuration (start + duration); the end
becomes the next current time. -/
def layoutCaptions (audioDuration : ℚ) (currentTime : ℚ) :
    List (List (List Char) × ℚ) → List Caption
  | [] => []
  | (seg, dur) :: rest =>
      let stop := rmin audioDuration (currentTime + dur)
      ⟨currentTime, stop, seg⟩ :: layoutCaptions audioDuration stop rest

/-- SubtitleGenerator._generate_proportional_timings.  Returns the empty list
for an empty script or nonpositive duration; otherwise computes weighted
clamped durations, rescales them, lays the spans out sequentially from zero
(zip pairs segments with durations positionally, as the Python zip does), and
finally sets the end of the last subtitle to exactly the audio duration.
The guard makes the weight list nonempty, so the source conditional that
replaces an empty weight sum by 1.0 cannot trigger and is not modelled. -/
def generateProportional (scriptWords : List (List Char))
    (segments : List (List (List Char))) (audioDuration : ℚ) : List Caption :=
  if scriptWords.isEmpty ∨ audioDuration ≤ 0 then []
  else
    updateLastStop (fun _ => audioDuration)
      (layoutCaptions audioDuration 0
        (segments.zip
          (scaleDurations audioDuration
            (rawSegDurations (scriptWords.map wordWeightProp)
              ((scriptWords.map wordWeightProp).sum) segments.length audioDuration
              segments 0))))

/-! ## Acoustic adapter: assembly stage -/

/-- SubtitleGenerator._calculate_word_weights: base 1 + length / 10, plus 0.5
after sentence-ending punctuation, plus 0.2 after a comma, semicolon or
colon. -/
def calculateWordWeights (words : List (List Char)) : List ℚ :=
  words.map fun w =>
    let base := 1 + (w.length : ℚ) / 10
    match w.getLast? with
    | some c =>
        if c = '.' ∨ c = '!' ∨ c = '?' then base + (0.5 : ℚ)
        else if c = ',' ∨ c = ';' ∨ c = ':' then base + (0.2 : ℚ)
        else base
    | none => base

/-- The scanning loop of _map_speech_time_to_audio: walk the speech segments
accumulating speech time until the segment containing the target time is
found, and interpolate linearly inside it; past the end, return the stop of
the last segment (0 for none, unreachable under the guard of the caller). -/
def mapSpeechGo (speechTime : ℚ) : List (ℚ × ℚ) → ℚ → ℚ
  | [], _ => 0
  | (segStart, segStop) :: rest, cumulative =>
      let segDur := segStop - segStart
      if cumulative + segDur ≥ speechTime then
        let localTime := speechTime - cumulative
        let progress := if segDur > 0 then localTime / segDur else 0
        segStart + segDur * progress
      else
        match rest with
        | [] => segStop
        | _ => mapSpeechGo speechTime rest (cumulative + segDur)

/-- SubtitleGenerator._map_speech_time_to_audio: maps proportional speech time
(excluding pauses) to an absolute audio timestamp through the speech-segment
list; degenerate inputs return the time unchanged. -/
def mapSpeechTimeToAudio (speechTime : ℚ) (speechSegments : List (ℚ × ℚ))
    (totalSpeechTime : ℚ) : ℚ :=
  if speechSegments.isEmpty ∨ totalSpeechTime ≤ 0 then speechTime
  else mapSpeechGo (rmax 0 (rmin speechTime totalSpeechTime)) speechSegments 0

/-- The subtitle-building loop of _generate_from_audio_analysis (lines
497-538 of subtitles.py), taken from the point where the acoustic analysis
has produced the speech-segment list; the numeric signal processing that
produces that list is an input here.  Each nonempty caption unit receives a
weighted share of total speech time, mapped onto absolute audio time, with
the minimum-duration rule applied. -/
def audioAssembleGo (speechSegments : List (ℚ × ℚ)) (totalSpeechTime : ℚ)
    (wordWeights : List ℚ) (totalWeight : ℚ) (segCount : ℕ) (audioDuration : ℚ) :
    List (List (List Char)) → ℕ → ℚ → List Caption
  | [], _, _ => []
  | seg :: rest, wordIdx, cumulativeSpeech =>
      if seg.isEmpty then
        audioAssembleGo speechSegments totalSpeechTime wordWeights totalWeight
          segCount audioDuration rest wordIdx cumulativeSpeech
      else
        let segWeight :=
          if wordIdx < wordWeights.length then
            ((wordWeights.drop wordIdx).take seg.length).sum
          else (seg.length : ℚ)
        let segSpeechDuration :=
          if totalWeight > 0 then totalSpeechTime * (segWeight / totalWeight)
          else totalSpeechTime / (segCount : ℚ)
        let startTime := mapSpeechTimeToAudio cumulativeSpeech speechSegments totalSpeechTime
        let endTime0 := mapSpeechTimeToAudio (cumulativeSpeech + segSpeechDuration)
            speechSegments totalSpeechTime
        let endTime :=
          if endTime0 - startTime < SUBTITLE_MIN_DURATION then
            rmin audioDuration (startTime + SUBTITLE_MIN_DURATION)
          else endTime0
        ⟨startTime, endTime, seg⟩
          :: audioAssembleGo speechSegments totalSpeechTime wordWeights totalWeight
              segCount audioDuration rest (wordIdx + seg.length)
              (cumulativeSpeech + segSpeechDuration)

/-- The assembly stage of _generate_from_audio_analysis: build the subtitles
from the detected speech segments and set the end of the last subtitle to
exactly the audio duration (line 538 assigns; it does not clamp). -/
def audioAnalysisAssemble (scriptWords : List (List Char))
    (segments : List (List (List Char))) (speechSegments : List (ℚ × ℚ))
    (audioDuration : ℚ) : List Caption :=
  let totalSpeechTime := (speechSegments.map (fun p => p.2 - p.1)).sum
  let wordWeights := calculateWordWeights scriptWords
  let totalWeight := if wordWeights.isEmpty then (scriptWords.length : ℚ)
                     else wordWeights.sum
  updateLastStop (fun _ => audioDuration)
    (audioAssembleGo speechSegments totalSpeechTime wordWeights totalWeight
      segments.length audioDuration segments 0 0)

/-! ## Adapter dispatch (generate_from_script) -/

/-- The three branches of generate_from_script, lines 52-75 of subtitles.py.
The audioAnalysis branch stands for the whole audio-file branch of the
dispatcher (an AssemblyAI transcription attempt when a key is configured,
falling back to the energy analysis). -/
inductive TimingPath
  | wordTimings
  | audioAnalysis
  | proportional
deriving DecidableEq

/-- The dispatch condition of generate_from_script: the word-timing branch
requires a present, nonempty timing list; otherwise the audio branch requires
a present, nonempty (Python truthiness of the string) and existing audio
path; otherwise the proportional fallback runs. -/
def selectTimingPath (wordTimings : Option (List WordTiming))
    (audioPath : Option (List Char)) (audioExists : List Char → Bool) : TimingPath :=
  if (match wordTimings with
      | some ts => !ts.isEmpty
      | none => false) then
    TimingPath.wordTimings
  else if (match audioPath with
      | some p => !p.isEmpty && audioExists p
      | none => false) then
    TimingPath.audioAnalysis
  else
    TimingPath.proportional

/-- generate_from_script specialized to calls without an audio file (the two
fully pure branches): segments are built from the script with the configured
words-per-line, then either the word-timing adapter (for a present nonempty
timing list) or the proportional adapter runs. -/
def generateFromScript (scriptWords : List (List Char)) (audioDuration : ℚ)
    (wordTimings : Option (List WordTiming)) : List Caption :=
  let segments := splitIntoSegments scriptWords SUBTITLE_WORDS_PER_LINE
  match wordTimings with
  | some ts =>
      if ts.isEmpty then generateProportional scriptWords segments audioDuration
      else generateFromWordTimings scriptWords segments ts audioDuration
  | none => generateProportional scriptWords segments audioDuration

/-! ## Concrete inputs used by the claim scenarios -/

/-- The word Hello as characters. -/
def helloWord : List Char := ['H', 'e', 'l', 'l', 'o']

/-- The word World as characters. -/
def worldWord : List Char := ['W', 'o', 'r', 'l', 'd']

/-- The word today as characters. -/
def todayWord : List Char := ['t', 'o', 'd', 'a', 'y']

/-- An unrelated token that matches no script word. -/
def xyzWord : List Char := ['x', 'y', 'z']

/-- The script Hello World today as a word list. -/
def scriptHWT : List (List Char) := [helloWord, worldWord, todayWord]

/-- The word-timing list of end-to-end scenario 2 of the spec: Hello at
offset 0 for 0.5, World at offset 1200 for 800 (milliseconds). -/
def timingsScenario2 : List WordTiming :=
  [{ text := helloWord, offset := 0, duration := 0.5 },
   { text := worldWord, offset := 1200, duration := 800 }]

/-- A decision procedure for Chain' by structural recursion (the library
instance is built with tactics and does not reduce inside the kernel). -/
def decChainAux {α : Type _} (R : α → α → Prop) [DecidableRel R] :
    (l : List α) → Decidable (List.Chain' R l)
  | [] => isTrue List.chain'_nil
  | [a] => isTrue (List.chain'_singleton a)
  | a :: b :: rest =>
      match decChainAux R (b :: rest), ‹DecidableRel R› a b with
      | isTrue ht, isTrue hr => isTrue (List.chain'_cons.mpr ⟨hr, ht⟩)
      | isFalse ht, _ => isFalse fun h => ht (List.chain'_cons.mp h).2
      | _, isFalse hr => isFalse fun h => hr (List.chain'_cons.mp h).1

instance (priority := 2000) decChainInst {α : Type _} (R : α → α → Prop)
    [DecidableRel R] (l : List α) : Decidable (List.Chain' R l) :=
  decChainAux R l

/-- The whole-track invariant asserted by claim C2: adjacent spans are
non-decreasing in start and non-overlapping (earlier stop at most later
start), and every span has start at most stop. -/
def trackInvariant (subs : List Caption) : Prop :=
  List.Chain' (fun a b => a.start ≤ b.start ∧ a.stop ≤ b.start) subs
    ∧ ∀ s ∈ subs, s.start ≤ s.stop

instance (subs : List Caption) : Decidable (trackInvariant subs) :=
  inferInstanceAs
    (Decidable (List.Chain' (fun a b : Caption => a.start ≤ b.start ∧ a.stop ≤ b.start) subs
      ∧ ∀ s ∈ subs, s.start ≤ s.stop))

/-! ## Claim C5: millisecond auto-detection -/

/-- C5: a matched word timing whose reported offset exceeds 1000 has both the
offset and the duration divided by 1000 before its span is recorded; on the
timing list of scenario 2 against the script Hello World today with audio
duration 3, the World subtitle starts at 1.2 seconds. -/
theorem C5_ms_normalization :
    (∀ t : WordTiming, t.offset > 1000 →
        timingSpan t
          = { start := t.offset / 1000, stop := t.offset / 1000 + t.duration / 1000 })
      ∧ ((generateFromScript scriptHWT 3 (some timingsScenario2))[1]?).map Caption.start
          = some (6 / 5) := by
  refine ⟨fun t ht => ?_, by decide⟩
  simp [timingSpan, ht]

/-- Witness for C5: the World timing of scenario 2 has offset 1200 > 1000 and
its recorded span divides both fields by 1000. -/
theorem C5_ms_normalization_witness :
    ((1200 : ℚ) > 1000)
      ∧ timingSpan { text := worldWord, offset := 1200, duration := 800 }
          = { start := (1200 : ℚ) / 1000, stop := (1200 : ℚ) / 1000 + (800 : ℚ) / 1000 } :=
  ⟨by norm_num,
   C5_ms_normalization.1 { text := worldWord, offset := 1200, duration := 800 } (by norm_num)⟩

/-! ## Claim C1: final end versus audio duration -/

/-- C1 counterexample: a call to generate_from_script through the word-timing
adapter (nonempty timing list, no audio file) whose single timing matches no
script word returns the non-empty track with final end 0.4, not the audio
duration 3: the word-timing assembler only clamps the final end with a
minimum, it does not force equality. -/
theorem C1_counterexample :
    generateFromScript [helloWord] 3 (some [{ text := xyzWord, offset := 0, duration := 1 }]) ≠ []
      ∧ ¬ ((generateFromScript [helloWord] 3
            (some [{ text := xyzWord, offset := 0, duration := 1 }])).getLast?).map Caption.stop
          = some 3 := by
  constructor <;> decide

/-! ## Claim C2: track invariant -/

/-- The word aa. -/
def aaWord : List Char := ['a', 'a']

/-- The word bb. -/
def bbWord : List Char := ['b', 'b']

/-- C2 counterexample: through the word-timing adapter, timings that arrive
out of chronological order are copied into the track as they are, so the
returned track [(5,6), (1,2)] violates every part of the claimed invariant:
the second start lies before the first start and before the first stop. -/
theorem C2_counterexample :
    generateFromScript [aaWord, bbWord] 10
        (some [{ text := aaWord, offset := 5, duration := 1 },
               { text := bbWord, offset := 1, duration := 1 }])
      = [{ start := 5, stop := 6, words := [aaWord] },
         { start := 1, stop := 2, words := [bbWord] }]
      ∧ ¬ trackInvariant
          (generateFromScript [aaWord, bbWord] 10
            (some [{ text := aaWord, offset := 5, duration := 1 },
                   { text := bbWord, offset := 1, duration := 1 }])) := by
  constructor <;> decide

/-! ## Claim C7: interpolation for unmatched units -/

/-- C7 counterexample: a first unit with no matched words and one word gets
the claimed end 0 + 1/2.5 = 0.4 only before clamping; with audio duration 0.3
the assembled end is 0.3, not 0.4, so the claim as stated (without the clamp)
fails. -/
theorem C7_counterexample :
    generateFromScript [helloWord] (0.3 : ℚ)
        (some [{ text := xyzWord, offset := 0, duration := 1 }])
      = [{ start := 0, stop := (0.3 : ℚ), words := [helloWord] }]
      ∧ ((0 : ℚ) + (1 : ℚ) / (2.5 : ℚ)) ≠ (0.3 : ℚ) := by
  constructor <;> decide

/-! ## Claim C4: proportional adapter arithmetic -/

/-- The word a. -/
def aWord : List Char := ['a']

/-- Six copies of the word a. -/
def sixA : List (List Char) := [aWord, aWord, aWord, aWord, aWord, aWord]

/-- C4 counterexample: on a six-word script with audio duration 1, every raw
per-unit duration clamps up to 0.35, the common rescale factor makes each
1/6, and the floor at 0.2 inside the scaling step lifts each to 0.2, so the
rescaled durations sum to 1.2, not to the audio duration 1: the single-factor
rescale does not make the sum exact whenever the 0.2 floor binds. -/
theorem C4_counterexample :
    (scaleDurations 1
        (rawSegDurations (sixA.map wordWeightProp) ((sixA.map wordWeightProp).sum)
          (splitIntoSegments sixA SUBTITLE_WORDS_PER_LINE).length 1
          (splitIntoSegments sixA SUBTITLE_WORDS_PER_LINE) 0)).sum = (1.2 : ℚ)
      ∧ ((1.2 : ℚ) ≠ 1) := by
  constructor <;> decide

/-! ## Claim C10: dispatch on an empty timing list -/

/-- C10: an empty word-timing list is dispatched exactly as a missing one:
the word-timing branch is not taken, the audio branch is selected when an
audio path is supplied, nonempty and existing, and the proportional fallback
otherwise. -/
theorem C10_empty_timings_dispatch :
    ∀ (audioPath : Option (List Char)) (audioExists : List Char → Bool),
      selectTimingPath (some []) audioPath audioExists
          = selectTimingPath none audioPath audioExists
        ∧ selectTimingPath none audioPath audioExists
            = (if (match audioPath with
                  | some p => !p.isEmpty && audioExists p
                  | none => false) then
                TimingPath.audioAnalysis
              else TimingPath.proportional) := by
  intro audioPath audioExists
  constructor
  · rfl
  · rfl

/-! ## Structural lemmas about updateLastStop and layoutCaptions -/

theorem rmin_le_left (a b : ℚ) : rmin a b ≤ a := by
  rw [rmin_eq]; exact min_le_left a b

theorem updateLastStop_getLast? (f : ℚ → ℚ) :
    ∀ l : List Caption,
      (updateLastStop f l).getLast? = l.getLast?.map fun s => { s with stop := f s.stop }
  | [] => rfl
  | [_] => rfl
  | a :: b :: u => by
      have ih := updateLastStop_getLast? f (b :: u)
      show (a :: updateLastStop f (b :: u)).getLast? = _
      rw [List.getLast?_cons_cons]
      cases u with
      | nil => rfl
      | cons c cs =>
          have hexp : updateLastStop f (b :: c :: cs) = b :: updateLastStop f (c :: cs) := rfl
          simp only [hexp, List.getLast?_cons_cons] at ih ⊢
          exact ih

theorem updateLastStop_head_start (f : ℚ → ℚ) :
    ∀ (l : List Caption) (s : Caption), (updateLastStop f l).head? = some s →
      ∃ t : Caption, l.head? = some t ∧ s.start = t.start
  | [], s, h => by simp [updateLastStop] at h
  | [a], s, h => by
      refine ⟨a, rfl, ?_⟩
      simp only [updateLastStop, List.head?_cons, Option.some.injEq] at h
      rw [← h]
  | a :: b :: u, s, h => by
      refine ⟨a, rfl, ?_⟩
      have hexp : updateLastStop f (a :: b :: u) = a :: updateLastStop f (b :: u) := rfl
      rw [hexp, List.head?_cons, Option.some.injEq] at h
      rw [← h]

theorem mem_updateLastStop (f : ℚ → ℚ) :
    ∀ (l : List Caption) (s : Caption), s ∈ updateLastStop f l →
      s ∈ l ∨ ∃ t ∈ l, s = { t with stop := f t.stop }
  | [], s, h => absurd h (List.not_mem_nil s)
  | [a], s, h => by
      right
      rcases List.mem_singleton.mp h with rfl
      exact ⟨a, List.mem_singleton_self a, rfl⟩
  | a :: b :: u, s, h => by
      have hexp : updateLastStop f (a :: b :: u) = a :: updateLastStop f (b :: u) := rfl
      rw [hexp] at h
      rcases List.mem_cons.mp h with rfl | h'
      · exact Or.inl (List.mem_cons_self _ _)
      · rcases mem_updateLastStop f (b :: u) s h' with h'' | ⟨t, ht, rfl⟩
        · exact Or.inl (List.mem_cons_of_mem _ h'')
        · exact Or.inr ⟨t, List.mem_cons_of_mem _ ht, rfl⟩

theorem chain_updateLastStop {R : Caption → Caption → Prop}
    (hR : ∀ (a b : Caption) (x : ℚ), R a b → R a { b with stop := x }) (f : ℚ → ℚ) :
    ∀ l : List Caption, List.Chain' R l → List.Chain' R (updateLastStop f l)
  | [], _ => List.chain'_nil
  | [_], _ => List.chain'_singleton _
  | a :: b :: u, h => by
      have h' := List.chain'_cons.mp h
      show List.Chain' R (a :: updateLastStop f (b :: u))
      cases u with
      | nil => exact List.chain'_cons.mpr ⟨hR a b _ h'.1, List.chain'_singleton _⟩
      | cons c cs =>
          have hexp : updateLastStop f (b :: c :: cs) = b :: updateLastStop f (c :: cs) := rfl
          rw [hexp]
          exact List.chain'_cons.mpr
            ⟨h'.1, hexp ▸ chain_updateLastStop hR f (b :: c :: cs) h'.2⟩

/-- Every subtitle laid out from currentTime onward stays inside the window:
it starts no earlier than the running time, starts no later than it stops,
and stops by the audio duration. -/
theorem layout_bounds (ad : ℚ) :
    ∀ (pairs : List (List (List Char) × ℚ)) (cur : ℚ),
      0 ≤ cur → cur ≤ ad → (∀ p ∈ pairs, 0 < p.2) →
      ∀ s ∈ layoutCaptions ad cur pairs, cur ≤ s.start ∧ s.start ≤ s.stop ∧ s.stop ≤ ad
  | [], _, _, _, _ => by simp [layoutCaptions]
  | (seg, dur) :: rest, cur, h0, hle, hpos => by
      intro s hs
      have hdur : 0 < dur := hpos (seg, dur) (List.mem_cons_self _ _)
      have hstop_le : rmin ad (cur + dur) ≤ ad := rmin_le_left ad (cur + dur)
      have hcur_stop : cur ≤ rmin ad (cur + dur) := by
        rw [rmin_eq]
        exact le_min hle (by linarith)
      rw [show layoutCaptions ad cur ((seg, dur) :: rest)
            = ⟨cur, rmin ad (cur + dur), seg⟩
              :: layoutCaptions ad (rmin ad (cur + dur)) rest from rfl] at hs
      rcases List.mem_cons.mp hs with rfl | h'
      · exact ⟨le_refl _, hcur_stop, hstop_le⟩
      · have ih := layout_bounds ad rest (rmin ad (cur + dur)) (le_trans h0 hcur_stop)
          hstop_le (fun p hp => hpos p (List.mem_cons_of_mem _ hp)) s h'
        exact ⟨le_trans hcur_stop ih.1, ih.2.1, ih.2.2⟩

/-- The layout produces adjacent spans whose later start equals the earlier
stop exactly. -/
theorem layout_chain_eq (ad : ℚ) :
    ∀ (pairs : List (List (List Char) × ℚ)) (cur : ℚ),
      List.Chain' (fun a b : Caption => b.start = a.stop) (layoutCaptions ad cur pairs)
  | [], _ => List.chain'_nil
  | (seg, dur) :: rest, cur => by
      rw [show layoutCaptions ad cur ((seg, dur) :: rest)
            = ⟨cur, rmin ad (cur + dur), seg⟩
              :: layoutCaptions ad (rmin ad (cur + dur)) rest from rfl]
      refine List.chain'_cons'.mpr ⟨?_, layout_chain_eq ad rest (rmin ad (cur + dur))⟩
      intro y hy
      cases rest with
      | nil => simp [layoutCaptions] at hy
      | cons q qs =>
          rw [show layoutCaptions ad (rmin ad (cur + dur)) (q :: qs)
                = ⟨rmin ad (cur + dur), rmin ad (rmin ad (cur + dur) + q.2), q.1⟩
                  :: layoutCaptions ad (rmin ad (rmin ad (cur + dur) + q.2)) qs from rfl,
              List.head?_cons, Option.mem_def, Option.some.injEq] at hy
          rw [← hy]

/-- The layout is monotone: adjacent spans are non-decreasing in start and
non-overlapping. -/
theorem layout_chain_le (ad : ℚ) :
    ∀ (pairs : List (List (List Char) × ℚ)) (cur : ℚ),
      0 ≤ cur → cur ≤ ad → (∀ p ∈ pairs, 0 < p.2) →
      List.Chain' (fun a b : Caption => a.start ≤ b.start ∧ a.stop ≤ b.start)
        (layoutCaptions ad cur pairs)
  | [], _, _, _, _ => List.chain'_nil
  | (seg, dur) :: rest, cur, h0, hle, hpos => by
      have hstop_le : rmin ad (cur + dur) ≤ ad := rmin_le_left ad (cur + dur)
      have hcur_stop : cur ≤ rmin ad (cur + dur) := by
        rw [rmin_eq]
        refine le_min hle ?_
        have := hpos (seg, dur) (List.mem_cons_self _ _)
        linarith
      rw [show layoutCaptions ad cur ((seg, dur) :: rest)
            = ⟨cur, rmin ad (cur + dur), seg⟩
              :: layoutCaptions ad (rmin ad (cur + dur)) rest from rfl]
      refine List.chain'_cons'.mpr
        ⟨?_, layout_chain_le ad rest (rmin ad (cur + dur)) (le_trans h0 hcur_stop)
          hstop_le (fun p hp => hpos p (List.mem_cons_of_mem _ hp))⟩
      intro y hy
      cases rest with
      | nil => simp [layoutCaptions] at hy
      | cons q qs =>
          rw [show layoutCaptions ad (rmin ad (cur + dur)) (q :: qs)
                = ⟨rmin ad (cur + dur), rmin ad (rmin ad (cur + dur) + q.2), q.1⟩
                  :: layoutCaptions ad (rmin ad (rmin ad (cur + dur) + q.2)) qs from rfl,
              List.head?_cons, Option.mem_def, Option.some.injEq] at hy
          rw [← hy]
          exact ⟨hcur_stop, le_refl _⟩

/-- Every raw proportional duration is at least the 0.35 clamp. -/
theorem rawSegDurations_ge (weights : List ℚ) (totalWeight : ℚ) (segCount : ℕ)
    (ad : ℚ) :
    ∀ (segs : List (List (List Char))) (wordIdx : ℕ),
      ∀ d ∈ rawSegDurations weights totalWeight segCount ad segs wordIdx, (0.35 : ℚ) ≤ d
  | [], _ => by simp [rawSegDurations]
  | seg :: rest, wordIdx => by
      intro d hd
      rw [rawSegDurations] at hd
      split at hd
      · exact rawSegDurations_ge weights totalWeight segCount ad rest wordIdx d hd
      · rcases List.mem_cons.mp hd with rfl | h'
        · rw [rmax_eq]
          exact le_max_left _ _
        · exact rawSegDurations_ge weights totalWeight segCount ad rest _ d h'

/-- Every scaled duration is positive, given the raw clamp bound. -/
theorem scaleDurations_pos (ad : ℚ) (durations : List ℚ)
    (hd : ∀ d ∈ durations, (0.35 : ℚ) ≤ d) :
    ∀ d ∈ scaleDurations ad durations, 0 < d := by
  intro d hdm
  unfold scaleDurations at hdm
  split at hdm
  · rcases List.mem_map.mp hdm with ⟨x, _, rfl⟩
    have h2 : (0.2 : ℚ) ≤ rmax 0.2 (x * (ad / durations.sum)) := by
      rw [rmax_eq]
      exact le_max_left _ _
    linarith
  · have := hd d hdm
    linarith

/-- The start of the first laid-out caption is the initial current time. -/
theorem layout_head_start (ad : ℚ) :
    ∀ (pairs : List (List (List Char) × ℚ)) (cur : ℚ) (t : Caption),
      (layoutCaptions ad cur pairs).head? = some t → t.start = cur
  | [], _, t, h => by simp [layoutCaptions] at h
  | (seg, dur) :: rest, cur, t, h => by
      rw [show layoutCaptions ad cur ((seg, dur) :: rest)
            = ⟨cur, rmin ad (cur + dur), seg⟩
              :: layoutCaptions ad (rmin ad (cur + dur)) rest from rfl,
          List.head?_cons, Option.some.injEq] at h
      rw [← h]

/-! ## Claim C1 (amended) -/

/-- C1 amended as the counterexample forces: the audio-analysis and
proportional adapters end the final subtitle exactly at the audio duration,
while the word-timing adapter only clamps the final end from above by the
audio duration (the end may fall short of it). -/
theorem C1_final_end_amended :
    (∀ (sw : List (List Char)) (segs : List (List (List Char))) (ad : ℚ) (s : Caption),
        (generateProportional sw segs ad).getLast? = some s → s.stop = ad)
      ∧ (∀ (sw : List (List Char)) (segs : List (List (List Char)))
            (sp : List (ℚ × ℚ)) (ad : ℚ) (s : Caption),
          (audioAnalysisAssemble sw segs sp ad).getLast? = some s → s.stop = ad)
      ∧ (∀ (script : List (List Char)) (segs : List (List (List Char)))
            (ts : List WordTiming) (ad : ℚ) (s : Caption),
          (generateFromWordTimings script segs ts ad).getLast? = some s → s.stop ≤ ad) := by
  refine ⟨?_, ?_, ?_⟩
  · intro sw segs ad s h
    unfold generateProportional at h
    split at h
    · simp at h
    · rw [updateLastStop_getLast?] at h
      obtain ⟨t, _, hfa⟩ := Option.map_eq_some'.mp h
      rw [← hfa]
  · intro sw segs sp ad s h
    simp only [audioAnalysisAssemble] at h
    rw [updateLastStop_getLast?] at h
    obtain ⟨t, _, hfa⟩ := Option.map_eq_some'.mp h
    rw [← hfa]
  · intro script segs ts ad s h
    simp only [generateFromWordTimings] at h
    rw [updateLastStop_getLast?] at h
    obtain ⟨t, _, hfa⟩ := Option.map_eq_some'.mp h
    rw [← hfa]
    exact rmin_le_left ad t.stop

/-- Witness for C1 amended, on one-word concrete inputs for each adapter. -/
theorem C1_final_end_amended_witness :
    ((generateProportional [helloWord]
          (splitIntoSegments [helloWord] SUBTITLE_WORDS_PER_LINE) 2).getLast?
        = some { start := 0, stop := 2, words := [helloWord] })
      ∧ ({ start := 0, stop := 2, words := [helloWord] } : Caption).stop = 2
      ∧ ((audioAnalysisAssemble [helloWord]
            (splitIntoSegments [helloWord] SUBTITLE_WORDS_PER_LINE) [(0, 1)] 2).getLast?
          = some { start := 0, stop := 2, words := [helloWord] })
      ∧ ({ start := 0, stop := 2, words := [helloWord] } : Caption).stop = 2
      ∧ ((generateFromWordTimings [helloWord]
            (splitIntoSegments [helloWord] SUBTITLE_WORDS_PER_LINE)
            [{ text := helloWord, offset := 0, duration := 1 }] 2).getLast?
          = some { start := 0, stop := 1, words := [helloWord] })
      ∧ ({ start := 0, stop := 1, words := [helloWord] } : Caption).stop ≤ 2 :=
  ⟨by decide,
   C1_final_end_amended.1 [helloWord]
     (splitIntoSegments [helloWord] SUBTITLE_WORDS_PER_LINE) 2
     { start := 0, stop := 2, words := [helloWord] } (by decide),
   by decide,
   C1_final_end_amended.2.1 [helloWord]
     (splitIntoSegments [helloWord] SUBTITLE_WORDS_PER_LINE) [(0, 1)] 2
     { start := 0, stop := 2, words := [helloWord] } (by decide),
   by decide,
   C1_final_end_amended.2.2 [helloWord]
     (splitIntoSegments [helloWord] SUBTITLE_WORDS_PER_LINE)
     [{ text := helloWord, offset := 0, duration := 1 }] 2
     { start := 0, stop := 1, words := [helloWord] } (by decide)⟩

/-! ## Claim C2 (amended) -/

/-- C2 amended as the counterexample forces: the track invariant (adjacent
spans non-decreasing and non-overlapping, every span with start at most stop)
holds for every track produced by the proportional adapter; the word-timing
adapter does not guarantee it. -/
theorem C2_proportional_invariant (sw : List (List Char))
    (segs : List (List (List Char))) (ad : ℚ) :
    trackInvariant (generateProportional sw segs ad) := by
  unfold generateProportional
  split
  · exact ⟨List.chain'_nil, by simp⟩
  · rename_i hguard
    have had : 0 < ad := by
      rcases not_or.mp hguard with ⟨_, h2⟩
      exact not_le.mp h2
    have hpos : ∀ p ∈ segs.zip
        (scaleDurations ad
          (rawSegDurations (sw.map wordWeightProp) ((sw.map wordWeightProp).sum)
            segs.length ad segs 0)), 0 < p.2 := by
      intro p hp
      exact scaleDurations_pos ad _
        (rawSegDurations_ge _ _ _ _ _ _) p.2 (List.of_mem_zip hp).2
    constructor
    · refine chain_updateLastStop (fun a b x hab => hab) _ _ ?_
      exact layout_chain_le ad _ 0 le_rfl (le_of_lt had) hpos
    · intro s hs
      rcases mem_updateLastStop _ _ s hs with h' | ⟨t, ht, rfl⟩
      · exact (layout_bounds ad _ 0 le_rfl (le_of_lt had) hpos s h').2.1
      · have hb := layout_bounds ad _ 0 le_rfl (le_of_lt had) hpos t ht
        show t.start ≤ ad
        exact le_trans hb.2.1 hb.2.2

/-! ## Claim C4 (amended) -/

/-- C4 amended as the counterexample forces: the proportional adapter lays the
spans out sequentially from time zero (first start 0, each later start equal
to the previous end), and the single-factor rescale makes the durations sum to
the audio duration exactly whenever the 0.2 floor applied after scaling binds
on no duration. -/
theorem C4_proportional_layout :
    (∀ (sw : List (List Char)) (segs : List (List (List Char))) (ad : ℚ) (s : Caption),
        (generateProportional sw segs ad).head? = some s → s.start = 0)
      ∧ (∀ (sw : List (List Char)) (segs : List (List (List Char))) (ad : ℚ),
          List.Chain' (fun a b : Caption => b.start = a.stop)
            (generateProportional sw segs ad))
      ∧ (∀ (durations : List ℚ) (ad : ℚ),
          0 < durations.sum →
          (∀ d ∈ durations, (0.2 : ℚ) ≤ d * (ad / durations.sum)) →
          (scaleDurations ad durations).sum = ad) := by
  refine ⟨?_, ?_, ?_⟩
  · intro sw segs ad s h
    unfold generateProportional at h
    split at h
    · simp at h
    · obtain ⟨t, ht, hstart⟩ := updateLastStop_head_start _ _ s h
      rw [hstart, layout_head_start ad _ _ t ht]
  · intro sw segs ad
    unfold generateProportional
    split
    · exact List.chain'_nil
    · exact chain_updateLastStop (fun a b x hab => hab) _ _ (layout_chain_eq ad _ 0)
  · intro durations ad hpos hfloor
    have hne : durations.sum ≠ 0 := ne_of_gt hpos
    unfold scaleDurations
    rw [if_pos hpos]
    have hmap : durations.map (fun d => rmax 0.2 (d * (ad / durations.sum)))
        = durations.map (fun d => d * (ad / durations.sum)) :=
      List.map_congr_left (fun d hd => by rw [rmax_eq]; exact max_eq_right (hfloor d hd))
    rw [hmap, List.sum_map_mul_right]
    rw [show List.map (fun d : ℚ => d) durations = durations from List.map_id' durations]
    field_simp

/-- Witness for C4 amended: a two-word script over two seconds, where the
rescale factor is one and no floor binds. -/
theorem C4_proportional_layout_witness :
    ((generateProportional [aaWord, bbWord]
          (splitIntoSegments [aaWord, bbWord] SUBTITLE_WORDS_PER_LINE) 2).head?
        = some { start := 0, stop := 1, words := [aaWord] })
      ∧ ({ start := 0, stop := 1, words := [aaWord] } : Caption).start = 0
      ∧ (0 : ℚ) < ([1, 1] : List ℚ).sum
      ∧ (∀ d ∈ ([1, 1] : List ℚ), (0.2 : ℚ) ≤ d * (2 / ([1, 1] : List ℚ).sum))
      ∧ (scaleDurations 2 [1, 1]).sum = 2 :=
  ⟨by decide,
   C4_proportional_layout.1 [aaWord, bbWord]
     (splitIntoSegments [aaWord, bbWord] SUBTITLE_WORDS_PER_LINE) 2
     { start := 0, stop := 1, words := [aaWord] } (by decide),
   by norm_num, by decide,
   C4_proportional_layout.2.2 [1, 1] 2 (by norm_num) (by decide)⟩

/-! ## Claim C7 (amended) -/

/-- C7 amended as the counterexample forces: for a caption unit in which no
script word matched a timing, the assembled span starts at the previous end
(zero for the first unit, never negative) and ends at the estimate start plus
word count over 2.5 — replaced by the start of the next matched word within a
three-word lookahead when one exists — and finally clamped from above by the
audio duration. -/
theorem C7_interpolation (timingMap : List (ℕ × Span)) (scriptLen : ℕ) (ad : ℚ)
    (subs : List Caption) (wordIdx : ℕ) (seg : List (List Char))
    (hseg : seg.isEmpty = false)
    (hmatch : (List.range' wordIdx (min (wordIdx + seg.length) scriptLen - wordIdx)).filter
        (fun i => (timingMap.lookup i).isSome) = [])
    (h0 : 0 ≤ prevStop subs) :
    assembleStep timingMap scriptLen ad (subs, wordIdx) seg
      = (subs ++ [{ start := prevStop subs,
                    stop := rmin
                      (match (List.range' (min (wordIdx + seg.length) scriptLen)
                          (min (min (wordIdx + seg.length) scriptLen + 3) scriptLen
                            - min (wordIdx + seg.length) scriptLen)).find?
                          (fun i => (timingMap.lookup i).isSome) with
                        | some i => ((timingMap.lookup i).map Span.start).getD 0
                        | none => prevStop subs + (seg.length : ℚ) / (2.5 : ℚ)) ad,
                    words := seg }],
         min (wordIdx + seg.length) scriptLen) := by
  have hmax : rmax 0 (prevStop subs) = prevStop subs := by
    rw [rmax_eq]
    exact max_eq_right h0
  simp only [assembleStep, hseg, Bool.false_eq_true, if_false, hmatch,
    List.head?_nil, List.getLast?_nil, hmax]

/-- Witness for C7 amended: an empty timing map over a one-word script. -/
theorem C7_interpolation_witness :
    ([helloWord] : List (List Char)).isEmpty = false
      ∧ (List.range' 0 (min (0 + 1) 1 - 0)).filter
          (fun i => (([] : List (ℕ × Span)).lookup i).isSome) = []
      ∧ (0 : ℚ) ≤ prevStop []
      ∧ assembleStep [] 1 3 ([], 0) [helloWord]
          = ([{ start := 0, stop := (0.4 : ℚ), words := [helloWord] }], 1) :=
  ⟨by decide, by decide, by decide, by
    rw [C7_interpolation [] 1 3 [] 0 [helloWord] (by decide) (by decide) (by decide)]
    decide⟩

/-! ## Pipeline orchestrator (main_pipeline.py) -/

/-- A fetched story, reduced to the only field the retry and cache logic
reads: its id (the source dict always carries one from the story source). -/
structure Story where
  id : List Char
deriving DecidableEq

/-- Outcome of generate_narration for a story: success, a failure that the
keyword and traceback inspection of lines 228-250 of main_pipeline.py
classifies as TTS-related, or a failure not so classified. -/
inductive NarrOutcome
  | ok
  | ttsFailure
  | otherFailure
deriving DecidableEq

/-- The environment of one pipeline run: story acquisition as a function of
the supplied avoid list, and the narration outcome per story.  The steps
after narration (subtitles, assembly, metadata) never touch the story cache
or the avoid list and are modelled as succeeding. -/
structure PipeEnv where
  fetchStory : List (List Char) → Option Story
  narration : Story → NarrOutcome

/-- State threaded through a run: the durable story cache (the used_ids list
of story_cache.json) and the in-memory avoid list (the failed_story_ids list
of generate_video). -/
structure PipeState where
  durableCache : List (List Char)
  avoidIds : List (List Char)
deriving DecidableEq

/-- story_cache.add_story_id: load the cache, append the id when absent, and
save keeping only the last 50 entries. -/
def addStoryId (cache : List (List Char)) (storyId : List Char) : List (List Char) :=
  if storyId ∈ cache then cache.drop (cache.length - 50)
  else (cache ++ [storyId]).drop ((cache ++ [storyId]).length - 50)

/-- A Python exception escaping the try block of _generate_video_internal,
tagged with how the keyword and traceback inspection of generate_video
(lines 70-90) would classify it. -/
structure PyError where
  isTTS : Bool
deriving DecidableEq

/-- The result dict of a pipeline run, reduced to its success flag. -/
structure GenResult where
  success : Bool
deriving DecidableEq

/-- Observable events of a run, in order. -/
inductive PipeEvent
  | fetched (id : List Char)
  | narrationOk (id : List Char)
  | narrationFailed (id : List Char)
  | cachedUsed (id : List Char)
deriving DecidableEq

/-- Steps 2-8 of _generate_video_internal from the narration call on
(lines 217-347): try narration; on success append the story id to the durable
cache (only here is add_story_id ever called) and finish successfully; on a
TTS-classified failure append the id to the in-memory avoid list and re-raise
as a RuntimeError whose text starts with TTS (classified TTS upstream); on
any other failure re-raise unchanged. -/
def afterFetch (env : PipeEnv) (st : PipeState) (story : Story) :
    Except PyError GenResult × PipeState × List PipeEvent :=
  match env.narration story with
  | NarrOutcome.ok =>
      (Except.ok { success := true },
        { st with durableCache := addStoryId st.durableCache story.id },
        [PipeEvent.fetched story.id, PipeEvent.narrationOk story.id,
         PipeEvent.cachedUsed story.id])
  | NarrOutcome.ttsFailure =>
      (Except.error { isTTS := true },
        { st with avoidIds := st.avoidIds ++ [story.id] },
        [PipeEvent.fetched story.id, PipeEvent.narrationFailed story.id])
  | NarrOutcome.otherFailure =>
      (Except.error { isTTS := false }, st,
        [PipeEvent.fetched story.id, PipeEvent.narrationFailed story.id])

/-- The body of the try block of _generate_video_internal (lines 121-347),
with FAST_RENDER_MODE and SKIP_AUDIO_GENERATION at their config defaults
(False) and no custom story: fetch a story avoiding the union of the durable
cache and the in-memory avoid list, retrying the fetch once with the same
avoid ids (the environment is deterministic, so the retry of lines 149-153
returns the same answer); raise a non-TTS-classified exception when no story
is found (the message of lines 156-162 matches no TTS keyword), otherwise
continue with the story. -/
def internalBody (env : PipeEnv) (st : PipeState) :
    Except PyError GenResult × PipeState × List PipeEvent :=
  match env.fetchStory (st.durableCache ++ st.avoidIds) with
  | none =>
      match env.fetchStory (st.durableCache ++ st.avoidIds) with
      | none => (Except.error { isTTS := false }, st, [])
      | some story => afterFetch env st story
  | some story => afterFetch env st story

/-- The function _generate_video_internal: run the body inside try; the except clause at
lines 349-357 catches every exception and turns it into a result dict with
success False instead of re-raising, so this function never raises. -/
def generateVideoInternal (env : PipeEnv) (st : PipeState) :
    GenResult × PipeState × List PipeEvent :=
  match internalBody env st with
  | (Except.ok r, stNew, tr) => (r, stNew, tr)
  | (Except.error _, stNew, tr) => ({ success := false }, stNew, tr)

/-- VideoPipeline.generate_video (lines 32-102): max_retries is 3 and
failed_story_ids starts empty; the first loop iteration calls
_generate_video_internal and returns its result.  The except clause of lines
69-102 (classify the error, retry with a different story when TTS-related)
is unreachable, because _generate_video_internal never raises: its own
except clause already converted the TTS RuntimeError into a failure dict.
So the function always returns after the first attempt. -/
def generateVideo (env : PipeEnv) (initialCache : List (List Char)) :
    GenResult × PipeState × List PipeEvent :=
  generateVideoInternal env { durableCache := initialCache, avoidIds := [] }

/-- The id s1. -/
def s1id : List Char := ['s', '1']

/-- An environment in which acquisition always yields story s1 and narration
always fails with a TTS-classified error. -/
def ttsFailEnv : PipeEnv :=
  { fetchStory := fun _ => some { id := s1id }
    narration := fun _ => NarrOutcome.ttsFailure }

/-- C3: on a TTS-classified narration failure, generate_video returns a
failure result from the very first attempt: the trace holds exactly one
acquisition, the failed id sits unused on the in-memory avoid list, and no
second attempt with that avoid list ever runs — the retry loop is dead code
because _generate_video_internal catches the TTS error itself and returns a
failure dict instead of re-raising it. -/
theorem C3_no_retry_on_tts :
    generateVideo ttsFailEnv []
      = ({ success := false },
         { durableCache := [], avoidIds := [s1id] },
         [PipeEvent.fetched s1id, PipeEvent.narrationFailed s1id])
      ∧ ((generateVideo ttsFailEnv []).2.2.filter
          (fun e => match e with
            | PipeEvent.fetched _ => true
            | _ => false)).length = 1 := by
  constructor <;> decide

/-- C8: the durable used-story cache is written only after narration
succeeds.  Whenever acquisition yields a story: if narration fails (in either
classification) the durable cache is unchanged; if the failure is
TTS-classified the id is recorded on the in-memory avoid list; if narration
succeeds the cache gains exactly that id through add_story_id; and a cache
write event can occur only when narration succeeded. -/
theorem C8_cache_only_after_narration (env : PipeEnv) (st : PipeState) (story : Story)
    (hfetch : env.fetchStory (st.durableCache ++ st.avoidIds) = some story) :
    ((env.narration story ≠ NarrOutcome.ok →
        (generateVideoInternal env st).2.1.durableCache = st.durableCache)
      ∧ (env.narration story = NarrOutcome.ttsFailure →
          story.id ∈ (generateVideoInternal env st).2.1.avoidIds)
      ∧ (env.narration story = NarrOutcome.ok →
          (generateVideoInternal env st).2.1.durableCache
            = addStoryId st.durableCache story.id)
      ∧ (∀ sid, PipeEvent.cachedUsed sid ∈ (generateVideoInternal env st).2.2 →
          env.narration story = NarrOutcome.ok)) := by
  cases hn : env.narration story with
  | ok =>
      refine ⟨fun hne => absurd rfl hne, fun h => absurd h (by decide),
        fun _ => ?_, fun sid _ => rfl⟩
      simp [generateVideoInternal, internalBody, hfetch, afterFetch, hn]
  | ttsFailure =>
      refine ⟨fun _ => ?_, fun _ => ?_, fun h => absurd h (by decide), fun sid hmem => ?_⟩
      · simp [generateVideoInternal, internalBody, hfetch, afterFetch, hn]
      · simp [generateVideoInternal, internalBody, hfetch, afterFetch, hn]
      · simp [generateVideoInternal, internalBody, hfetch, afterFetch, hn] at hmem
  | otherFailure =>
      refine ⟨fun _ => ?_, fun h => absurd h (by decide),
        fun h => absurd h (by decide), fun sid hmem => ?_⟩
      · simp [generateVideoInternal, internalBody, hfetch, afterFetch, hn]
      · simp [generateVideoInternal, internalBody, hfetch, afterFetch, hn] at hmem

/-- An environment in which acquisition always yields story s1 and narration
always succeeds. -/
def okEnv : PipeEnv :=
  { fetchStory := fun _ => some { id := s1id }
    narration := fun _ => NarrOutcome.ok }

/-- Witness for C8: under the success environment from the empty state, the
durable cache receives exactly the fetched id. -/
theorem C8_cache_only_after_narration_witness :
    okEnv.fetchStory (([] : List (List Char)) ++ []) = some { id := s1id }
      ∧ (generateVideoInternal okEnv { durableCache := [], avoidIds := [] }).2.1.durableCache
          = addStoryId [] s1id :=
  ⟨rfl,
   (C8_cache_only_after_narration okEnv { durableCache := [], avoidIds := [] }
     { id := s1id } rfl).2.2.1 rfl⟩

/-! ## Upload scheduler (_schedule_uploads of server_scheduler.py) -/

/-- One manifest entry, reduced to the uploaded flag the loop reads and
writes. -/
structure VideoRec where
  uploaded : Bool
deriving DecidableEq

/-- Outcome of one call of the upload client for a given video index: success,
an error _is_credit_error classifies as quota or credit related, or any other
error. -/
inductive UploadOutcome
  | ok
  | creditError
  | otherError
deriving DecidableEq

/-- Observable events of the upload loop, in order: an upload attempt for a
video index, and a persistence of the manifest to stable storage. -/
inductive SchedEvent
  | attempt (i : ℕ)
  | savedManifest
deriving DecidableEq

/-- Mark the video at an index uploaded (the loop mutates the entry aliased
into the manifest). -/
def setUploaded (videos : List VideoRec) (i : ℕ) : List VideoRec :=
  videos.set i { uploaded := true }

/-- The upload loop of _schedule_uploads (lines 235-271): for each pending
video in order, attempt the upload; on success mark the entry uploaded and
persist the manifest (lines 252-256); on failure persist the manifest
(line 262) and stop the loop — explicitly for a quota or credit error
(lines 265-268) and equally for any other error (line 271).  Sleeping and
pacing are not modelled; the upload result fields recorded on success do not
affect control flow and are not modelled. -/
def uploadGo (outcome : ℕ → UploadOutcome) :
    List ℕ → List VideoRec → List VideoRec × List SchedEvent
  | [], videos => (videos, [])
  | i :: rest, videos =>
      match outcome i with
      | UploadOutcome.ok =>
          ((uploadGo outcome rest (setUploaded videos i)).1,
            SchedEvent.attempt i :: SchedEvent.savedManifest
              :: (uploadGo outcome rest (setUploaded videos i)).2)
      | UploadOutcome.creditError =>
          (videos, [SchedEvent.attempt i, SchedEvent.savedManifest])
      | UploadOutcome.otherError =>
          (videos, [SchedEvent.attempt i, SchedEvent.savedManifest])

/-- The pending filter of line 218: indices of entries not yet uploaded, in
manifest order. -/
def pendingIdx (videos : List VideoRec) : List ℕ :=
  (List.range videos.length).filter
    (fun i => !(videos.getD i { uploaded := true }).uploaded)

/-- The function _schedule_uploads: run the upload loop over the pending entries. -/
def scheduleUploads (outcome : ℕ → UploadOutcome) (videos : List VideoRec) :
    List VideoRec × List SchedEvent :=
  uploadGo outcome (pendingIdx videos) videos

/-- Recognizes traces in which every upload attempt is immediately followed
by a manifest persistence, and nothing else occurs. -/
def savedAfterEachAttempt : List SchedEvent → Bool
  | [] => true
  | SchedEvent.attempt _ :: SchedEvent.savedManifest :: rest => savedAfterEachAttempt rest
  | _ => false

theorem savedAfterEachAttempt_uploadGo (outcome : ℕ → UploadOutcome) :
    ∀ (idxs : List ℕ) (videos : List VideoRec),
      savedAfterEachAttempt (uploadGo outcome idxs videos).2 = true
  | [], _ => rfl
  | i :: rest, videos => by
      cases h : outcome i with
      | ok =>
          have ih := savedAfterEachAttempt_uploadGo outcome rest (setUploaded videos i)
          simp only [uploadGo, h]
          exact ih
      | creditError => simp [uploadGo, h, savedAfterEachAttempt]
      | otherError => simp [uploadGo, h, savedAfterEachAttempt]

/-- Three pending manifest entries. -/
def threePending : List VideoRec :=
  [{ uploaded := false }, { uploaded := false }, { uploaded := false }]

/-- Upload outcomes of scenario 3 of the spec: the first upload succeeds, the
second raises a quota error. -/
def quotaOnSecond : ℕ → UploadOutcome :=
  fun i => if i = 0 then UploadOutcome.ok else UploadOutcome.creditError

/-- C9: the manifest is persisted after every single upload attempt, success
or failure; and in the scenario of three pending videos with a quota error on
the second upload, the cycle stops with video one uploaded, videos two and
three not uploaded, and video three never attempted. -/
theorem C9_upload_persistence :
    (∀ (outcome : ℕ → UploadOutcome) (videos : List VideoRec),
        savedAfterEachAttempt (scheduleUploads outcome videos).2 = true)
      ∧ scheduleUploads quotaOnSecond threePending
          = ([{ uploaded := true }, { uploaded := false }, { uploaded := false }],
             [SchedEvent.attempt 0, SchedEvent.savedManifest,
              SchedEvent.attempt 1, SchedEvent.savedManifest])
      ∧ SchedEvent.attempt 2 ∉ (scheduleUploads quotaOnSecond threePending).2 :=
  ⟨fun outcome videos => savedAfterEachAttempt_uploadGo outcome (pendingIdx videos) videos,
   by decide, by decide⟩

end ShortGen
